import Mathlib

/-!
Verification of the rule optimization and multi-dialect export engine
(package `rules`, file `optimizer.go` of the repository).

Strings are modelled as lists of characters (`Str`); Go's byte-oriented
primitives (`strings.TrimSpace`, `strings.Split`, `strings.HasPrefix`,
`strings.ToUpper`, byte-wise `<` on strings, `len`) are modelled
character-wise, which agrees with the byte semantics on ASCII data
(UTF-8 byte order also agrees with code-point order in general).

The nondeterminism of Go's map iteration feeding `sort.Slice` inside
`Deduplicate` is modelled by the relation `DedupRel`: an output list is
any permutation of the deduplicated (and, for the CIDR families,
normalized) input that carries no inversion of the per-type comparator.
This is exactly the guarantee `sort.Slice` gives when the comparator is
a strict weak order; the two types whose comparator is not (NETWORK and
IN-TYPE, whose priority/lexicographic mix is not transitive) are kept
out of the determinism theorems.

Glob matching (the external `doublestar` library) is an abstract
parameter `m : Str → Str → Option Bool`; `none` models a pattern error,
which the code treats as a non-match.
-/

abbrev Str := List Char

def str (s : String) : Str := s.data

/-- Whitespace as trimmed by `strings.TrimSpace` (ASCII subset). -/
def isSpaceChar (c : Char) : Bool :=
  c == ' ' || c == '\t' || c == '\n' || c == '\r' || c == '\x0b' || c == '\x0c'

def trimSpace (l : Str) : Str :=
  ((l.dropWhile isSpaceChar).reverse.dropWhile isSpaceChar).reverse

/-- `strings.HasPrefix`. -/
def hasPrefixL : Str → Str → Bool
  | [], _ => true
  | _ :: _, [] => false
  | p :: ps, c :: cs => p == c && hasPrefixL ps cs

/-- `strings.HasSuffix`. -/
def hasSuffixL (p l : Str) : Bool := hasPrefixL p.reverse l.reverse

/-- `strings.Contains` with a one-character substring. -/
def containsC (c : Char) (l : Str) : Bool := l.any (fun x => x == c)

/-- `strings.Contains` with an arbitrary substring. -/
def containsSub (pat : Str) : Str → Bool
  | [] => pat.isEmpty
  | c :: rest => hasPrefixL pat (c :: rest) || containsSub pat rest

/-- `strings.Split` on a one-character separator: every part kept,
empty parts included; splitting the empty string gives one empty part. -/
def splitOnChar (c : Char) : Str → List Str
  | [] => [[]]
  | x :: xs =>
    if x == c then [] :: splitOnChar c xs
    else
      match splitOnChar c xs with
      | [] => [[x]]
      | p :: ps => (x :: p) :: ps

/-- `strings.Join(parts, ",")`. -/
def joinComma (parts : List Str) : Str := List.intercalate [','] parts

/-- `strings.ToUpper` (ASCII). -/
def toUpperL (l : Str) : Str := l.map Char.toUpper

/-- `strings.ToLower` (ASCII). -/
def toLowerL (l : Str) : Str := l.map Char.toLower

/-- Go's `<` on strings: lexicographic. -/
def ltL : Str → Str → Bool
  | [], [] => false
  | [], _ :: _ => true
  | _ :: _, [] => false
  | a :: xs, b :: ys => if a < b then true else if b < a then false else ltL xs ys

/- ------------------------------------------------------------------ -/
/- Rule parser (`ParseRule`).                                          -/
/- ------------------------------------------------------------------ -/

structure Rule where
  rtype : Str
  payload : Str
  options : Str
deriving DecidableEq

/-- The skip test of the YAML-field heuristic: the text before the first
colon holds neither a space nor a comma. -/
def yamlFieldCheck (l : Str) : Bool :=
  let beforeColon := trimSpace (l.takeWhile (fun c => !(c == ':')))
  !(containsC ' ' beforeColon) && !(containsC ',' beforeColon)

/-- The skip heuristics `ParseRule` runs after the list-item dash has
been handled: empty line, YAML field, no comma, file-name echo. -/
def preprocessAfterDash (l2 : Str) : Option Str :=
  if l2 = [] then none
  else if containsC ':' l2 && !(containsC ',' l2) && yamlFieldCheck l2 then none
  else if !(containsC ',' l2) then none
  else if hasSuffixL (str ".list") l2 || hasSuffixL (str ".yaml") l2 ||
       hasSuffixL (str ".txt") l2 || hasSuffixL (str ".conf") l2 then none
  else some l2

/-- All of `ParseRule`'s line preprocessing and skip heuristics, in the
source's order. `none` means the line is skipped (comment, blank, YAML
noise, no comma, file-name echo); `some l` is the line handed to the
comma split. -/
def preprocessLine (input : Str) : Option Str :=
  if trimSpace input = [] then none
  else if hasPrefixL (str "#") (trimSpace input) || hasPrefixL (str ";") (trimSpace input) ||
       hasPrefixL (str "//") (trimSpace input) || hasPrefixL (str "---") (trimSpace input) then none
  else if hasPrefixL (str "-") (trimSpace input) then
    preprocessAfterDash (trimSpace ((trimSpace input).drop 1))
  else preprocessAfterDash (trimSpace input)

/-- `ParseRule`: `.ok none` models the `nil, nil` skip; `.error` models
the `invalid rule format` error. -/
def ParseRule (input : Str) : Except Str (Option Rule) :=
  match preprocessLine input with
  | none => Except.ok none
  | some l =>
    match splitOnChar ',' l with
    | p0 :: p1 :: rest =>
      Except.ok (some
        { rtype := toUpperL (trimSpace p0)
          payload := trimSpace p1
          options := match rest with | r2 :: _ => trimSpace r2 | [] => [] })
    | _ => Except.error (str "invalid rule format: " ++ l)

/- ------------------------------------------------------------------ -/
/- Rule store (`RuleSet`, `LoadRuleFile`).                             -/
/- ------------------------------------------------------------------ -/

structure RuleSetL where
  name : Str
  rules : List (Str × List Str)
  filters : List Str
  excludes : List Str
deriving DecidableEq

def lookupAssoc : List (Str × List Str) → Str → List Str
  | [], _ => []
  | (k, v) :: rest, ty => if k = ty then v else lookupAssoc rest ty

/-- Map read `ruleSet.Rules[ruleType]`: a missing key is the empty list. -/
def getRules (rs : RuleSetL) (ty : Str) : List Str := lookupAssoc rs.rules ty

/-- `ruleSet.Rules[rule.Type] = append(ruleSet.Rules[rule.Type], payload)`. -/
def addRuleAssoc : List (Str × List Str) → Str → Str → List (Str × List Str)
  | [], ty, p => [(ty, [p])]
  | (k, v) :: rest, ty, p =>
    if k = ty then (k, v ++ [p]) :: rest else (k, v) :: addRuleAssoc rest ty p

/-- The combined payload stored by `LoadRuleFile`:
`payload` or `payload + "," + options`. -/
def payloadOf (r : Rule) : Str :=
  if r.options = [] then r.payload else r.payload ++ ',' :: r.options

/-- One iteration of `LoadRuleFile`'s scanner loop: parse errors and
skipped lines leave the set unchanged. -/
def loadLine (rs : RuleSetL) (line : Str) : RuleSetL :=
  match ParseRule line with
  | Except.ok (some r) => { rs with rules := addRuleAssoc rs.rules r.rtype (payloadOf r) }
  | _ => rs

def loadLines (lines : List Str) (rs : RuleSetL) : RuleSetL := lines.foldl loadLine rs

def mkRuleSet (n : Str) : RuleSetL := ⟨n, [], [], []⟩

/- ------------------------------------------------------------------ -/
/- Sort policy (`sortRulesByType` comparators), CIDR normalization.    -/
/- ------------------------------------------------------------------ -/

/-- The closed RuleType vocabulary (the 33 constants of the source). -/
def ruleTypeVocab : List Str :=
  [str "DOMAIN", str "DOMAIN-SUFFIX", str "DOMAIN-KEYWORD", str "DOMAIN-WILDCARD",
   str "DOMAIN-REGEX",
   str "IP-CIDR", str "IP-CIDR6", str "SRC-IP-CIDR", str "SRC-IP-CIDR6",
   str "IP-SUFFIX", str "SRC-IP-SUFFIX", str "GEOIP", str "SRC-GEOIP",
   str "IP-ASN", str "SRC-IP-ASN",
   str "PROCESS-NAME", str "PROCESS-PATH", str "PROCESS-NAME-REGEX",
   str "PROCESS-PATH-REGEX",
   str "DST-PORT", str "SRC-PORT", str "IN-PORT",
   str "GEOSITE", str "NETWORK", str "UID", str "IN-TYPE", str "IN-USER",
   str "IN-NAME", str "DSCP", str "RULE-SET", str "SUB-RULE",
   str "MATCH", str "FINAL"]

def cidrTypes : List Str :=
  [str "IP-CIDR", str "IP-CIDR6", str "SRC-IP-CIDR", str "SRC-IP-CIDR6",
   str "IP-SUFFIX", str "SRC-IP-SUFFIX"]

def portTypes : List Str := [str "DST-PORT", str "SRC-PORT", str "IN-PORT"]

/-- Length first, then lexicographic (DOMAIN, keyword, regex, process kinds). -/
def lenLexLt (a b : Str) : Bool :=
  if a.length ≠ b.length then decide (a.length < b.length) else ltL a b

/-- The DOMAIN-SUFFIX short-suffix tier: length 2 through 5. -/
def shortTier (a : Str) : Bool := decide (2 ≤ a.length) && decide (a.length ≤ 5)

/-- DOMAIN-SUFFIX order: short tier first, then length, then lexicographic. -/
def suffixLt (a b : Str) : Bool :=
  if shortTier a ≠ shortTier b then shortTier a
  else if a.length ≠ b.length then decide (a.length < b.length)
  else ltL a b

def digitsToNat (l : Str) : Nat := l.foldl (fun n c => 10 * n + (c.toNat - 48)) 0

/-- `fmt.Sscanf(mask, "%d", &maskLen)`: optional sign then digits; on
scan failure the variable keeps its zero value. -/
def parseIntLead (s : Str) : Int :=
  let s1 := s.dropWhile isSpaceChar
  match s1 with
  | '-' :: rest =>
    if rest.takeWhile Char.isDigit = [] then 0
    else -(Int.ofNat (digitsToNat (rest.takeWhile Char.isDigit)))
  | '+' :: rest =>
    if rest.takeWhile Char.isDigit = [] then 0
    else Int.ofNat (digitsToNat (rest.takeWhile Char.isDigit))
  | _ =>
    if s1.takeWhile Char.isDigit = [] then 0
    else Int.ofNat (digitsToNat (s1.takeWhile Char.isDigit))

/-- `extractCIDRMask`: mask after the first `/` of the first comma part,
else 128 when the address holds a `:`, else 32. -/
def extractCIDRMask (cidr : Str) : Int :=
  let cidrPart := (splitOnChar ',' cidr).headD []
  if containsC '/' cidrPart then
    parseIntLead ((cidrPart.dropWhile (fun c => !(c == '/'))).drop 1)
  else if containsC ':' cidrPart then 128
  else 32

/-- `normalizeCIDR`: append `/32` or `/128` to the first comma part when
it carries no mask, preserving the remaining comma parts. -/
def normalizeCIDR (rule : Str) : Str :=
  match splitOnChar ',' rule with
  | [] => rule
  | cidrPart :: rest =>
    if containsC '/' cidrPart then rule
    else
      let mask := if containsC ':' cidrPart then str "/128" else str "/32"
      joinComma ((cidrPart ++ mask) :: rest)

/-- CIDR order: mask length descending, then lexicographic. -/
def cidrLt (a b : Str) : Bool :=
  if extractCIDRMask a ≠ extractCIDRMask b
  then decide (extractCIDRMask b < extractCIDRMask a)
  else ltL a b

/-- `strings.Split(rule, "-")[0]`: the range start of a port rule. -/
def portStart (s : Str) : Str := s.takeWhile (fun c => !(c == '-'))

/-- Port order: range start compared as a string. -/
def portLt (a b : Str) : Bool := ltL (portStart a) (portStart b)

/-- `strings.TrimPrefix(rule, "AS")`. -/
def asnKey (s : Str) : Str := if hasPrefixL (str "AS") s then s.drop 2 else s

def asnLt (a b : Str) : Bool := ltL (asnKey a) (asnKey b)

def networkPriority (s : Str) : Option Nat :=
  if toLowerL s = str "tcp" then some 1
  else if toLowerL s = str "udp" then some 2
  else if toLowerL s = str "icmp" then some 3
  else none

def networkLt (a b : Str) : Bool :=
  match networkPriority a, networkPriority b with
  | some pa, some pb => if pa ≠ pb then decide (pa < pb) else ltL a b
  | _, _ => ltL a b

def inTypePriority (s : Str) : Option Nat :=
  if toLowerL s = str "http" then some 1
  else if toLowerL s = str "https" then some 2
  else if toLowerL s = str "socks5" then some 3
  else none

def inTypeLt (a b : Str) : Bool :=
  match inTypePriority a, inTypePriority b with
  | some pa, some pb => if pa ≠ pb then decide (pa < pb) else ltL a b
  | _, _ => ltL a b

/-- The comparator of `sortRulesByType`, dispatched on the rule type the
way the source's `switch` is; the last branch is the `sort.Strings`
default (which also serves UID, DSCP, IN-USER and IN-NAME). -/
def cmpLt (ty : Str) (a b : Str) : Bool :=
  if ty = str "DOMAIN" then lenLexLt a b
  else if ty = str "DOMAIN-SUFFIX" then suffixLt a b
  else if ty = str "DOMAIN-KEYWORD" ∨ ty = str "DOMAIN-WILDCARD" then lenLexLt a b
  else if ty = str "DOMAIN-REGEX" ∨ ty = str "PROCESS-NAME-REGEX" ∨
       ty = str "PROCESS-PATH-REGEX" then lenLexLt a b
  else if ty ∈ cidrTypes then cidrLt a b
  else if ty = str "PROCESS-NAME" ∨ ty = str "PROCESS-PATH" then lenLexLt a b
  else if ty ∈ portTypes then portLt a b
  else if ty = str "GEOIP" ∨ ty = str "SRC-GEOIP" ∨ ty = str "GEOSITE" then ltL a b
  else if ty = str "IP-ASN" ∨ ty = str "SRC-IP-ASN" then asnLt a b
  else if ty = str "NETWORK" then networkLt a b
  else if ty = str "IN-TYPE" then inTypeLt a b
  else ltL a b

/-- The in-place normalization `sortRulesByType` performs before sorting
the CIDR families; identity elsewhere. -/
def normFor (ty : Str) (s : Str) : Str := if ty ∈ cidrTypes then normalizeCIDR s else s

/-- One (rule-set, type) step of `Deduplicate`: the output is some
permutation of the distinct input strings (map-based dedup, iterated in
unspecified order), normalized for the CIDR families, carrying no
inversion of the type's comparator (the `sort.Slice` postcondition). -/
def DedupRel (ty : Str) (input out : List Str) : Prop :=
  out.Perm ((input.dedup).map (normFor ty)) ∧
  out.Pairwise (fun a b => cmpLt ty b a = false)

/-- `Deduplicate` over a whole rule set: name, filters and excludes are
untouched; each type's list is replaced by a `DedupRel` output. -/
def StoreDedupRel (rs rs2 : RuleSetL) : Prop :=
  rs2.name = rs.name ∧ rs2.filters = rs.filters ∧ rs2.excludes = rs.excludes ∧
  rs.rules.length = rs2.rules.length ∧
  ∀ p ∈ rs.rules.zip rs2.rules, p.1.1 = p.2.1 ∧ DedupRel p.1.1 p.1.2 p.2.2

instance instDecDedupRel (ty : Str) (input out : List Str) :
    Decidable (DedupRel ty input out) := by
  unfold DedupRel
  infer_instance

instance instDecStoreDedupRel (rs rs2 : RuleSetL) :
    Decidable (StoreDedupRel rs rs2) := by
  unfold StoreDedupRel
  infer_instance

/- ------------------------------------------------------------------ -/
/- Filter / exclude engine (`applyRuleFilters`).                       -/
/- ------------------------------------------------------------------ -/

/-- `if m, err := doublestar.Match(pat, s); err == nil && m`. -/
def matchOK (m : Str → Str → Option Bool) (pat s : Str) : Bool :=
  match m pat s with
  | some true => true
  | _ => false

/-- `fmt.Sprintf("%s,%s", ruleType, rule)`. -/
def fullRule (ty rule : Str) : Str := ty ++ ',' :: rule

/-- `applyRuleFilters`: whitelist stage (skipped when `filters` is
empty; empty patterns are skipped inside the loop), then blacklist
stage (same shape). -/
def filtersPass (m : Str → Str → Option Bool) (ty : Str) (filters : List Str)
    (rule : Str) : Bool :=
  filters.any (fun f => !f.isEmpty && matchOK m f (fullRule ty rule))

def excludesPass (m : Str → Str → Option Bool) (ty : Str) (excludes : List Str)
    (rule : Str) : Bool :=
  !(excludes.any (fun e => !e.isEmpty && matchOK m e (fullRule ty rule)))

def applyRuleFilters (m : Str → Str → Option Bool) (rules : List Str) (ty : Str)
    (filters excludes : List Str) : List Str :=
  if rules = [] then rules
  else if filters = [] then
    (if excludes = [] then rules
     else rules.filter (excludesPass m ty excludes))
  else
    (if excludes = [] then rules.filter (filtersPass m ty filters)
     else (rules.filter (filtersPass m ty filters)).filter (excludesPass m ty excludes))

/- ------------------------------------------------------------------ -/
/- Exporters (rule lines of the `.list` outputs; header and placeholder
   comment lines are not modelled).                                    -/
/- ------------------------------------------------------------------ -/

/-- The DOMAIN-SUFFIX rewrite of `exportDomain`. -/
def canonSuffix (rule : Str) : Str :=
  if hasPrefixL (str "+.") rule then rule
  else if hasPrefixL (str ".") rule then '+' :: rule
  else str "+." ++ rule

/-- Drop every comma part equal (after trimming) to `no-resolve`. -/
def removeNoResolve (rule : Str) : Str :=
  joinComma ((splitOnChar ',' rule).filter (fun p => !(trimSpace p == str "no-resolve")))

/-- Rule lines of `<name>_domain.list`: filtered DOMAIN rules verbatim,
then filtered DOMAIN-SUFFIX rules through the `+.` rewrite. -/
def exportDomainList (m : Str → Str → Option Bool) (rs : RuleSetL) : List Str :=
  applyRuleFilters m (getRules rs (str "DOMAIN")) (str "DOMAIN") rs.filters rs.excludes ++
  (applyRuleFilters m (getRules rs (str "DOMAIN-SUFFIX")) (str "DOMAIN-SUFFIX")
    rs.filters rs.excludes).map canonSuffix

/-- Rule lines of `<name>_ipcidr.list`: IP-CIDR then IP-CIDR6, filtered,
with `no-resolve` stripped. -/
def exportIPCIDRList (m : Str → Str → Option Bool) (rs : RuleSetL) : List Str :=
  (applyRuleFilters m (getRules rs (str "IP-CIDR")) (str "IP-CIDR")
    rs.filters rs.excludes).map removeNoResolve ++
  (applyRuleFilters m (getRules rs (str "IP-CIDR6")) (str "IP-CIDR6")
    rs.filters rs.excludes).map removeNoResolve

/-- The fixed traversal order of `exportClassical` (the source's
`orderedTypes` literal). -/
def orderedTypes : List Str :=
  [str "DOMAIN", str "DOMAIN-SUFFIX", str "DOMAIN-KEYWORD", str "DOMAIN-WILDCARD",
   str "DOMAIN-REGEX",
   str "IP-CIDR", str "IP-CIDR6", str "SRC-IP-CIDR", str "SRC-IP-CIDR6",
   str "IP-SUFFIX", str "SRC-IP-SUFFIX", str "IP-ASN", str "SRC-IP-ASN",
   str "GEOIP", str "SRC-GEOIP", str "GEOSITE",
   str "PROCESS-NAME", str "PROCESS-PATH", str "PROCESS-NAME-REGEX",
   str "PROCESS-PATH-REGEX",
   str "DST-PORT", str "SRC-PORT", str "IN-PORT",
   str "NETWORK", str "UID", str "IN-TYPE", str "IN-USER", str "IN-NAME",
   str "DSCP", str "RULE-SET", str "SUB-RULE"]

def domainListTypes : List Str := [str "DOMAIN", str "DOMAIN-SUFFIX"]

def ipcidrListTypes : List Str := [str "IP-CIDR", str "IP-CIDR6"]

/-- The per-rule `no-resolve` rewriting of `exportClassical` for the
IP-CIDR and IP-CIDR6 kinds. -/
def processCIDRRule (withNoResolve : Bool) (ty rule : Str) : Str :=
  if ty = str "IP-CIDR" ∨ ty = str "IP-CIDR6" then
    if withNoResolve then
      if containsSub (str "no-resolve") rule then rule else rule ++ str ",no-resolve"
    else removeNoResolve rule
  else rule

/-- The rule lines one type contributes to a classical export. -/
def classicalSection (m : Str → Str → Option Bool) (rs : RuleSetL)
    (includeAll withNoResolve : Bool) (ty : Str) : List Str :=
  if getRules rs ty = [] then []
  else if !includeAll && decide (ty ∈ domainListTypes) then []
  else if !includeAll && decide (ty ∈ ipcidrListTypes) && !withNoResolve then []
  else if applyRuleFilters m (getRules rs ty) ty rs.filters rs.excludes = [] then []
  else (applyRuleFilters m (getRules rs ty) ty rs.filters rs.excludes).map
    (fun r => fullRule ty (processCIDRRule withNoResolve ty r))

/-- Rule lines of the classical `.list` exports, in the fixed traversal
order. -/
def exportClassicalList (m : Str → Str → Option Bool) (rs : RuleSetL)
    (includeAll withNoResolve : Bool) : List Str :=
  (orderedTypes.map (classicalSection m rs includeAll withNoResolve)).flatten

/- ------------------------------------------------------------------ -/
/- Concrete data for examples, witnesses and counterexamples.          -/
/- ------------------------------------------------------------------ -/

/-- A matcher that never matches. -/
def mFalse : Str → Str → Option Bool := fun _ _ => some false

/-- A matcher by plain equality; the empty pattern only matches the
empty string, as with `doublestar`. -/
def mEq : Str → Str → Option Bool := fun p s2 => some (p == s2)

/-- The three input lines of the end-to-end example. -/
def testLines : List Str :=
  [str "IP-CIDR,1.2.3.0/24", str "IP-CIDR,1.2.3.0/24", str "DOMAIN-SUFFIX,.example.com"]

/-- A rule set holding only a MATCH rule. -/
def rsMatchOnly : RuleSetL := ⟨str "t", [(str "MATCH", [str "x"])], [], []⟩

/- ------------------------------------------------------------------ -/
/- Helper lemmas.                                                      -/
/- ------------------------------------------------------------------ -/

lemma ltL_irrefl (l : Str) : ltL l l = false := by
  induction l with
  | nil => rfl
  | cons c cs ih => simp [ltL, ih]

lemma ltL_asymm_eq (a : Str) : ∀ b, ltL a b = false → ltL b a = false → a = b := by
  induction a with
  | nil =>
    intro b h1 _
    cases b with
    | nil => rfl
    | cons d ds => simp [ltL] at h1
  | cons c cs ih =>
    intro b h1 h2
    cases b with
    | nil => simp [ltL] at h2
    | cons d ds =>
      simp only [ltL] at h1 h2
      by_cases hcd : c < d
      · rw [if_pos hcd] at h1
        exact absurd h1 (by simp)
      · rw [if_neg hcd] at h1
        by_cases hdc : d < c
        · rw [if_pos hdc] at h2
          exact absurd h2 (by simp)
        · rw [if_neg hdc, if_neg hcd] at h2
          rw [if_neg hdc] at h1
          have hce : c = d := le_antisymm (not_lt.mp hdc) (not_lt.mp hcd)
          rw [hce, ih ds h1 h2]

lemma lenLexLt_asymm_eq (a b : Str) (h1 : lenLexLt a b = false) (h2 : lenLexLt b a = false) :
    a = b := by
  unfold lenLexLt at h1 h2
  by_cases hl : a.length = b.length
  · rw [if_neg (by omega)] at h1
    rw [if_neg (by omega)] at h2
    exact ltL_asymm_eq a b h1 h2
  · rw [if_pos hl] at h1
    rw [if_pos (by omega)] at h2
    simp at h1 h2
    omega

lemma suffixLt_asymm_eq (a b : Str) (h1 : suffixLt a b = false) (h2 : suffixLt b a = false) :
    a = b := by
  unfold suffixLt at h1 h2
  by_cases hs : shortTier a = shortTier b
  · rw [if_neg (by simp [hs])] at h1
    rw [if_neg (by simp [hs])] at h2
    by_cases hl : a.length = b.length
    · rw [if_neg (by omega)] at h1
      rw [if_neg (by omega)] at h2
      exact ltL_asymm_eq a b h1 h2
    · rw [if_pos hl] at h1
      rw [if_pos (by omega)] at h2
      simp at h1 h2
      omega
  · rw [if_pos hs] at h1
    rw [if_pos (by simp; intro he; exact hs he.symm)] at h2
    rw [h1] at hs
    exact absurd h2.symm hs

lemma cidrLt_asymm_eq (a b : Str) (h1 : cidrLt a b = false) (h2 : cidrLt b a = false) :
    a = b := by
  unfold cidrLt at h1 h2
  by_cases hm : extractCIDRMask a = extractCIDRMask b
  · rw [if_neg (by omega)] at h1
    rw [if_neg (by omega)] at h2
    exact ltL_asymm_eq a b h1 h2
  · rw [if_pos hm] at h1
    rw [if_pos (by omega)] at h2
    simp at h1 h2
    omega

set_option maxHeartbeats 1600000 in
lemma cmpLt_asymm_eq (ty : Str)
    (hty : ty ∉ [str "DST-PORT", str "SRC-PORT", str "IN-PORT", str "IP-ASN",
      str "SRC-IP-ASN", str "NETWORK", str "IN-TYPE"])
    (a b : Str) (h1 : cmpLt ty a b = false) (h2 : cmpLt ty b a = false) : a = b := by
  simp only [List.mem_cons, List.not_mem_nil, or_false, not_or] at hty
  obtain ⟨n1, n2, n3, n4, n5, n6, n7⟩ := hty
  unfold cmpLt at h1 h2
  split_ifs at h1 h2 with hc1 hc2 hc3 hc4 hc5 hc6 hc7 hc8 hc9
  · exact lenLexLt_asymm_eq a b h1 h2
  · exact suffixLt_asymm_eq a b h1 h2
  · exact lenLexLt_asymm_eq a b h1 h2
  · exact lenLexLt_asymm_eq a b h1 h2
  · exact cidrLt_asymm_eq a b h1 h2
  · exact lenLexLt_asymm_eq a b h1 h2
  · exact absurd hc7 (by simp [portTypes, n1, n2, n3])
  · exact ltL_asymm_eq a b h1 h2
  · rcases hc9 with h | h
    · exact absurd h n4
    · exact absurd h n5
  · exact ltL_asymm_eq a b h1 h2

lemma dedupRel_unique (ty : Str)
    (hty : ty ∉ [str "DST-PORT", str "SRC-PORT", str "IN-PORT", str "IP-ASN",
      str "SRC-IP-ASN", str "NETWORK", str "IN-TYPE"])
    (input out1 out2 : List Str)
    (h1 : DedupRel ty input out1) (h2 : DedupRel ty input out2) : out1 = out2 := by
  haveI : IsAntisymm Str (fun a b => cmpLt ty b a = false) :=
    ⟨fun a b hab hba => cmpLt_asymm_eq ty hty a b hba hab⟩
  exact List.eq_of_perm_of_sorted (h1.1.trans h2.1.symm) h1.2 h2.2

lemma dedupRel_idem (ty : Str)
    (hty : ty ∉ [str "DST-PORT", str "SRC-PORT", str "IN-PORT", str "IP-ASN",
      str "SRC-IP-ASN", str "NETWORK", str "IN-TYPE"])
    (hc : ty ∉ cidrTypes)
    (input out1 out2 : List Str)
    (h1 : DedupRel ty input out1) (h2 : DedupRel ty out1 out2) : out2 = out1 := by
  have hid : ∀ s, normFor ty s = s := fun s => by unfold normFor; rw [if_neg hc]
  have hmap : ∀ l : List Str, l.map (normFor ty) = l := by
    intro l
    rw [funext hid]
    simp
  have h1p : out1.Perm input.dedup := by
    have hp := h1.1
    rwa [hmap] at hp
  have hn1 : out1.Nodup := h1p.symm.nodup (List.nodup_dedup input)
  have hd : out1.dedup = out1 := List.dedup_eq_self.mpr hn1
  have h2p : out2.Perm out1 := by
    have hp := h2.1
    rwa [hmap, hd] at hp
  haveI : IsAntisymm Str (fun a b => cmpLt ty b a = false) :=
    ⟨fun a b hab hba => cmpLt_asymm_eq ty hty a b hba hab⟩
  exact List.eq_of_perm_of_sorted h2p h2.2 h1.2

lemma perm_pair {a b : Str} {out : List Str} (h : out.Perm [a, b]) :
    out = [a, b] ∨ out = [b, a] := by
  have hlen : out.length = 2 := by rw [h.length_eq]; rfl
  rcases out with _ | ⟨x, _ | ⟨y, _ | ⟨z, rest⟩⟩⟩
  · simp at hlen
  · simp at hlen
  · have hx : x ∈ [a, b] := h.subset (by simp)
    simp at hx
    rcases hx with hx | hx
    · rw [hx] at h
      have h2 := List.perm_singleton.mp h.cons_inv
      simp at h2
      left
      rw [hx, h2]
    · rw [hx] at h
      have hswap : ([a, b] : List Str).Perm [b, a] := List.Perm.swap b a []
      have h2 := List.perm_singleton.mp (h.trans hswap).cons_inv
      simp at h2
      right
      rw [hx, h2]
  · simp at hlen

lemma splitOnChar_ne_nil (c : Char) (l : Str) : splitOnChar c l ≠ [] := by
  induction l with
  | nil => simp [splitOnChar]
  | cons x xs ih =>
    simp only [splitOnChar]
    by_cases h : x == c
    · rw [if_pos h]
      simp
    · rw [if_neg h]
      cases hs : splitOnChar c xs with
      | nil => simp
      | cons p ps => simp

lemma splitOnChar_two_le (c : Char) (l : Str) (h : containsC c l = true) :
    2 ≤ (splitOnChar c l).length := by
  induction l with
  | nil => simp [containsC] at h
  | cons x xs ih =>
    simp only [splitOnChar]
    by_cases hx : x == c
    · rw [if_pos hx]
      have hne := splitOnChar_ne_nil c xs
      cases hs : splitOnChar c xs with
      | nil => exact absurd hs hne
      | cons p ps => simp
    · rw [if_neg hx]
      have hxs : containsC c xs = true := by
        simp [containsC] at h ⊢
        rcases h with h | h
        · exact absurd h (by simpa using hx)
        · exact h
      have hlen := ih hxs
      cases hs : splitOnChar c xs with
      | nil => exact absurd hs (splitOnChar_ne_nil c xs)
      | cons p ps =>
        rw [hs] at hlen
        simp only [List.length_cons] at hlen ⊢
        omega

lemma preprocessAfterDash_some {l2 l : Str} (h : preprocessAfterDash l2 = some l) :
    l = l2 ∧ containsC ',' l2 = true := by
  unfold preprocessAfterDash at h
  split_ifs at h with h1 h2 h3 h4
  simp only [Option.some.injEq] at h
  refine ⟨h.symm, ?_⟩
  simpa using h3

lemma preprocess_some_contains {input l : Str} (h : preprocessLine input = some l) :
    containsC ',' l = true := by
  unfold preprocessLine at h
  split_ifs at h with h1 h2 h3
  · have := preprocessAfterDash_some h
    rw [this.1]
    exact this.2
  · have := preprocessAfterDash_some h
    rw [this.1]
    exact this.2

lemma parseRule_isOk (input : Str) : ∃ r, ParseRule input = Except.ok r := by
  cases hp : preprocessLine input with
  | none =>
    refine ⟨none, ?_⟩
    unfold ParseRule
    rw [hp]
  | some l =>
    have hc := preprocess_some_contains hp
    have h2 := splitOnChar_two_le ',' l hc
    cases hs : splitOnChar ',' l with
    | nil => rw [hs] at h2; simp at h2
    | cons p0 ptail =>
      cases ptail with
      | nil => rw [hs] at h2; simp at h2
      | cons p1 rest =>
        cases rest with
        | nil =>
          refine ⟨some (Rule.mk (toUpperL (trimSpace p0)) (trimSpace p1) []), ?_⟩
          unfold ParseRule
          rw [hp]
          dsimp only
          simp only [hs]
        | cons r2 rtail =>
          refine ⟨some (Rule.mk (toUpperL (trimSpace p0)) (trimSpace p1) (trimSpace r2)), ?_⟩
          unfold ParseRule
          rw [hp]
          dsimp only
          simp only [hs]

lemma canonSuffix_of_plusdot {r : Str} (h : hasPrefixL (str "+.") r = true) :
    canonSuffix r = r := by
  unfold canonSuffix
  rw [if_pos h]

lemma canonSuffix_plusdot (r : Str) : hasPrefixL (str "+.") (canonSuffix r) = true := by
  unfold canonSuffix
  split_ifs with h1 h2
  · exact h1
  · cases r with
    | nil => simp [hasPrefixL, str] at h2
    | cons c cs =>
      simp [hasPrefixL, str] at h2 ⊢
      exact h2
  · simp [hasPrefixL, str]

lemma canonSuffix_idem (r : Str) : canonSuffix (canonSuffix r) = canonSuffix r :=
  canonSuffix_of_plusdot (canonSuffix_plusdot r)

lemma matchOK_eq_true {m : Str → Str → Option Bool} {pat s2 : Str} :
    matchOK m pat s2 = true ↔ m pat s2 = some true := by
  unfold matchOK
  cases h : m pat s2 with
  | none => simp
  | some b => cases b <;> simp

lemma fullRule_ne_nil (ty rule : Str) : fullRule ty rule ≠ [] := by
  cases ty <;> simp [fullRule]

lemma applyRuleFilters_nil (m : Str → Str → Option Bool) (rules : List Str) (ty : Str) :
    applyRuleFilters m rules ty [] [] = rules := by
  unfold applyRuleFilters
  simp

lemma applyRuleFilters_eq_filter (m : Str → Str → Option Bool) (rules : List Str)
    (ty : Str) (filters excludes : List Str) :
    applyRuleFilters m rules ty filters excludes =
      rules.filter (fun rule =>
        (filters.isEmpty || filtersPass m ty filters rule) &&
        excludesPass m ty excludes rule) := by
  unfold applyRuleFilters
  by_cases hr : rules = []
  · rw [if_pos hr, hr]
    rfl
  · rw [if_neg hr]
    by_cases hf : filters = []
    · subst hf
      rw [if_pos rfl]
      by_cases he : excludes = []
      · subst he
        rw [if_pos rfl]
        simp [excludesPass]
      · rw [if_neg he]
        simp
    · rw [if_neg hf]
      have hfi : filters.isEmpty = false := by
        cases filters with
        | nil => exact absurd rfl hf
        | cons f fs => rfl
      by_cases he : excludes = []
      · subst he
        rw [if_pos rfl]
        simp [hfi, excludesPass]
      · rw [if_neg he]
        rw [List.filter_filter]
        simp [hfi, Bool.and_comm]

lemma classicalSection_congr (m : Str → Str → Option Bool) (rs : RuleSetL)
    (ia w : Bool) (ty : Str) (hf : rs.filters = []) (he : rs.excludes = []) :
    classicalSection m rs ia w ty = classicalSection mFalse rs ia w ty := by
  unfold classicalSection
  rw [hf, he]
  simp only [applyRuleFilters_nil]

lemma exportClassicalList_congr (m : Str → Str → Option Bool) (rs : RuleSetL)
    (ia w : Bool) (hf : rs.filters = []) (he : rs.excludes = []) :
    exportClassicalList m rs ia w = exportClassicalList mFalse rs ia w := by
  unfold exportClassicalList
  rw [funext (fun ty => classicalSection_congr m rs ia w ty hf he)]

lemma exportDomainList_congr (m : Str → Str → Option Bool) (rs : RuleSetL)
    (hf : rs.filters = []) (he : rs.excludes = []) :
    exportDomainList m rs = exportDomainList mFalse rs := by
  unfold exportDomainList
  rw [hf, he]
  simp only [applyRuleFilters_nil]

lemma exportIPCIDRList_congr (m : Str → Str → Option Bool) (rs : RuleSetL)
    (hf : rs.filters = []) (he : rs.excludes = []) :
    exportIPCIDRList m rs = exportIPCIDRList mFalse rs := by
  unfold exportIPCIDRList
  rw [hf, he]
  simp only [applyRuleFilters_nil]

lemma applyRuleFilters_empty_rules (m : Str → Str → Option Bool) (ty : Str)
    (filters excludes : List Str) : applyRuleFilters m [] ty filters excludes = [] := by
  unfold applyRuleFilters
  rw [if_pos rfl]

lemma mem_exportClassicalList_of (m : Str → Str → Option Bool) (rs : RuleSetL)
    (w : Bool) (ty r : Str) (hty : ty ∈ orderedTypes)
    (hr : r ∈ applyRuleFilters m (getRules rs ty) ty rs.filters rs.excludes) :
    fullRule ty (processCIDRRule w ty r) ∈ exportClassicalList m rs true w := by
  unfold exportClassicalList
  rw [List.mem_flatten]
  refine ⟨classicalSection m rs true w ty, List.mem_map_of_mem _ hty, ?_⟩
  unfold classicalSection
  have hrules : getRules rs ty ≠ [] := by
    intro h0
    rw [h0, applyRuleFilters_empty_rules] at hr
    exact absurd hr (List.not_mem_nil r)
  have hfil : applyRuleFilters m (getRules rs ty) ty rs.filters rs.excludes ≠ [] := by
    intro h0
    rw [h0] at hr
    exact absurd hr (List.not_mem_nil r)
  rw [if_neg hrules]
  simp only [Bool.not_true, Bool.false_and, Bool.false_or, if_false]
  rw [if_neg hfil]
  exact List.mem_map_of_mem _ hr

lemma cmpLt_port {ty : Str} (hty : ty ∈ portTypes) (a b : Str) :
    cmpLt ty a b = portLt a b := by
  simp only [portTypes, List.mem_cons, List.not_mem_nil, or_false] at hty
  rcases hty with h | h | h <;> subst h <;> rfl

lemma cmpLt_cidr {ty : Str} (hty : ty ∈ cidrTypes) (a b : Str) :
    cmpLt ty a b = cidrLt a b := by
  simp only [cidrTypes, List.mem_cons, List.not_mem_nil, or_false] at hty
  rcases hty with h | h | h | h | h | h <;> subst h <;> rfl

lemma normFor_cidr {ty : Str} (hty : ty ∈ cidrTypes) (s : Str) :
    normFor ty s = normalizeCIDR s := by
  unfold normFor
  rw [if_pos hty]

/- ------------------------------------------------------------------ -/
/- Claim theorems.                                                     -/
/- ------------------------------------------------------------------ -/

/-- C8: the domain-suffix rewrite of `exportDomain` is total and
idempotent: a value already prefixed with `+.` is kept as-is, a value
prefixed with `.` gets `+` prepended, any other value gets `+.`
prepended, and applying the rewrite twice equals applying it once;
`.x.com`, `x.com` and `+.x.com` all map to `+.x.com`. -/
theorem claim_C8_canon_suffix :
    (∀ s : Str, canonSuffix (canonSuffix s) = canonSuffix s) ∧
    (∀ s : Str, hasPrefixL (str "+.") s = true → canonSuffix s = s) ∧
    (∀ s : Str, hasPrefixL (str "+.") s = false → hasPrefixL (str ".") s = true →
      canonSuffix s = '+' :: s) ∧
    (∀ s : Str, hasPrefixL (str "+.") s = false → hasPrefixL (str ".") s = false →
      canonSuffix s = str "+." ++ s) ∧
    canonSuffix (str ".x.com") = str "+.x.com" ∧
    canonSuffix (str "x.com") = str "+.x.com" ∧
    canonSuffix (str "+.x.com") = str "+.x.com" := by
  refine ⟨canonSuffix_idem, fun s h => canonSuffix_of_plusdot h, ?_, ?_,
    by decide, by decide, by decide⟩
  · intro s h1 h2
    unfold canonSuffix
    rw [if_neg (by simp [h1]), if_pos h2]
  · intro s h1 h2
    unfold canonSuffix
    rw [if_neg (by simp [h1]), if_neg (by simp [h2])]

/-- Witness for C8 at concrete inputs. -/
theorem claim_C8_witness :
    canonSuffix (canonSuffix (str ".x.com")) = canonSuffix (str ".x.com") ∧
    canonSuffix (str "+.x.com") = str "+.x.com" :=
  ⟨claim_C8_canon_suffix.1 (str ".x.com"),
   claim_C8_canon_suffix.2.1 (str "+.x.com") (by decide)⟩

/-- C3 counterexample: on the line `,` (one comma, empty parts) ParseRule
returns a Rule with empty type, payload and options — not a
malformed-line error. -/
theorem claim_C3_counterexample :
    ParseRule (str ",") = Except.ok (some ⟨[], [], []⟩) := rfl

/-- C3 (amended): every line that reaches the comma split contains a
comma and therefore splits into at least two parts, so ParseRule never
returns a malformed-line error on any input; on the line `,` it returns
a Rule with empty type and payload. -/
theorem claim_C3_amended :
    (∀ line : Str, ∃ r, ParseRule line = Except.ok r) ∧
    ParseRule (str ",") = Except.ok (some ⟨[], [], []⟩) :=
  ⟨parseRule_isOk, rfl⟩

/-- C5 counterexample: ParseRule accepts the line `foo,bar` as a rule of
type `FOO`, which is not in the RuleType vocabulary. -/
theorem claim_C5_counterexample :
    ParseRule (str "foo,bar") = Except.ok (some ⟨str "FOO", str "bar", []⟩) ∧
    str "FOO" ∉ ruleTypeVocab := ⟨rfl, by decide⟩

/-- C5 (amended): ParseRule performs no vocabulary check: whenever it
returns a Rule, the rule's type is the uppercased trimmed first
comma-field of the preprocessed line, whatever that field is; in
particular `foo,bar` is accepted with type `FOO` outside the
vocabulary. -/
theorem claim_C5_amended :
    (∀ l r, ParseRule l = Except.ok (some r) →
      ∃ l2 p0 p1 rest, preprocessLine l = some l2 ∧
        splitOnChar ',' l2 = p0 :: p1 :: rest ∧
        r.rtype = toUpperL (trimSpace p0)) ∧
    ParseRule (str "foo,bar") = Except.ok (some ⟨str "FOO", str "bar", []⟩) ∧
    str "FOO" ∉ ruleTypeVocab := by
  refine ⟨?_, rfl, by decide⟩
  intro l r h
  unfold ParseRule at h
  cases hp : preprocessLine l with
  | none => rw [hp] at h; simp at h
  | some l2 =>
    rw [hp] at h
    dsimp only at h
    cases hs : splitOnChar ',' l2 with
    | nil => rw [hs] at h; simp at h
    | cons p0 ptail =>
      cases ptail with
      | nil => rw [hs] at h; simp at h
      | cons p1 rest =>
        rw [hs] at h
        dsimp only at h
        simp only [Except.ok.injEq, Option.some.injEq] at h
        refine ⟨l2, p0, p1, rest, rfl, hs, ?_⟩
        rw [← h]

/-- Witness for C5's amended theorem at the concrete line `foo,bar`. -/
theorem claim_C5_witness :
    ∃ l2 p0 p1 rest, preprocessLine (str "foo,bar") = some l2 ∧
      splitOnChar ',' l2 = p0 :: p1 :: rest ∧
      (Rule.mk (str "FOO") (str "bar") []).rtype = toUpperL (trimSpace p0) :=
  claim_C5_amended.1 (str "foo,bar") (Rule.mk (str "FOO") (str "bar") []) rfl

/-- C10: when the filters list is non-empty but all its patterns are the
empty string, the whitelist stage is active while every pattern is
skipped, so applyRuleFilters returns the empty list. -/
theorem claim_C10_empty_patterns (m : Str → Str → Option Bool) (rules : List Str)
    (ty : Str) (filters excludes : List Str)
    (h1 : rules ≠ []) (h2 : filters ≠ []) (h3 : ∀ f ∈ filters, f = []) :
    applyRuleFilters m rules ty filters excludes = [] := by
  rw [applyRuleFilters_eq_filter]
  have hfi : filters.isEmpty = false := by
    cases filters with
    | nil => exact absurd rfl h2
    | cons f fs => rfl
  have hpass : ∀ rule, filtersPass m ty filters rule = false := by
    intro rule
    unfold filtersPass
    simp only [List.any_eq_false]
    intro f hf
    rw [h3 f hf]
    simp
  simp [hfi, hpass]

/-- Witness for C10 at a concrete rule list and all-empty filters. -/
theorem claim_C10_witness :
    applyRuleFilters mFalse [str "a"] (str "DOMAIN") [[]] [str "b"] = [] :=
  claim_C10_empty_patterns mFalse [str "a"] (str "DOMAIN") [[]] [str "b"]
    (by decide) (by decide) (by decide)

/-- C2 counterexample: for DST-PORT the distinct rules `80-443` and
`80-100` share the range start `80`, so both orders are valid
`Deduplicate` outputs of the same input, and re-running `Deduplicate` on
one valid output can produce the other: the order is not uniquely
determined and byte-identical idempotence fails. -/
theorem claim_C2_counterexample :
    DedupRel (str "DST-PORT") [str "80-443", str "80-100"]
      [str "80-443", str "80-100"] ∧
    DedupRel (str "DST-PORT") [str "80-443", str "80-100"]
      [str "80-100", str "80-443"] ∧
    DedupRel (str "DST-PORT") [str "80-100", str "80-443"]
      [str "80-443", str "80-100"] ∧
    ([str "80-443", str "80-100"] : List Str) ≠ [str "80-100", str "80-443"] :=
  ⟨by decide, by decide, by decide, by decide⟩

/-- C2 (amended): for every rule type except the port kinds (DST-PORT,
SRC-PORT, IN-PORT), the ASN kinds (IP-ASN, SRC-IP-ASN) and the two
priority-mixed kinds NETWORK and IN-TYPE, the comparator orders distinct
entries totally, so the Deduplicate output is uniquely determined; for
those types outside the IP-CIDR families Deduplicate is moreover
idempotent (re-running it reproduces the same list byte for byte). -/
theorem claim_C2_amended (ty : Str)
    (hty : ty ∉ [str "DST-PORT", str "SRC-PORT", str "IN-PORT", str "IP-ASN",
      str "SRC-IP-ASN", str "NETWORK", str "IN-TYPE"])
    (input out1 out2 : List Str)
    (h1 : DedupRel ty input out1) (h2 : DedupRel ty input out2) :
    out1 = out2 ∧ (ty ∉ cidrTypes → ∀ out3, DedupRel ty out1 out3 → out3 = out1) :=
  ⟨dedupRel_unique ty hty input out1 out2 h1 h2,
   fun hc out3 h3 => dedupRel_idem ty hty hc input out1 out3 h1 h3⟩

/-- Witness for C2's amended theorem at the DOMAIN type. -/
theorem claim_C2_witness :
    ([str "a", str "bb"] : List Str) = [str "a", str "bb"] ∧
    ((str "DOMAIN") ∉ cidrTypes → ∀ out3,
      DedupRel (str "DOMAIN") [str "a", str "bb"] out3 → out3 = [str "a", str "bb"]) :=
  claim_C2_amended (str "DOMAIN") (by decide) [str "bb", str "a"]
    [str "a", str "bb"] [str "a", str "bb"] (by decide) (by decide)

/-- C9: for the port kinds the Deduplicate order compares the substring
before the first `-` (the range start) as a string, not numerically: the
comparator is exactly that string comparison, every output carries no
inversion of it, and on the input `20-30`, `100-200` the unique output
puts `100-200` first. -/
theorem claim_C9_port_sort :
    (∀ ty, ty ∈ portTypes → ∀ a b, cmpLt ty a b = ltL (portStart a) (portStart b)) ∧
    (∀ ty input out, ty ∈ portTypes → DedupRel ty input out →
      out.Pairwise (fun a b => ltL (portStart b) (portStart a) = false)) ∧
    (∀ out, DedupRel (str "DST-PORT") [str "20-30", str "100-200"] out →
      out = [str "100-200", str "20-30"]) := by
  refine ⟨fun ty hty a b => cmpLt_port hty a b, ?_, ?_⟩
  · intro ty input out hty h
    refine h.2.imp ?_
    intro a b hab
    rwa [cmpLt_port hty] at hab
  · intro out h
    have hperm := h.1
    have hL : ((List.dedup [str "20-30", str "100-200"]).map
        (normFor (str "DST-PORT"))) = [str "20-30", str "100-200"] := by decide
    rw [hL] at hperm
    rcases perm_pair hperm with h1 | h1
    · exfalso
      have hp := h.2
      rw [h1] at hp
      have hx := (List.pairwise_cons.mp hp).1 (str "100-200") (by simp)
      revert hx
      decide
    · exact h1

/-- Witness for C9's concrete part. -/
theorem claim_C9_witness :
    ([str "100-200", str "20-30"] : List Str) = [str "100-200", str "20-30"] :=
  claim_C9_port_sort.2.2 [str "100-200", str "20-30"] (by decide)

/-- C6: Deduplicate first normalizes each IP-CIDR-family entry — `/32`
appended for a mask-less address with no colon, `/128` with a colon,
comma-options preserved, masked entries unchanged — and sorts by mask
length descending with lexicographic tie-break. -/
theorem claim_C6_cidr_normalize_sort :
    (normalizeCIDR (str "1.2.3.4") = str "1.2.3.4/32") ∧
    (normalizeCIDR (str "::1") = str "::1/128") ∧
    (normalizeCIDR (str "10.0.0.0/8") = str "10.0.0.0/8") ∧
    (normalizeCIDR (str "1.2.3.4,no-resolve") = str "1.2.3.4/32,no-resolve") ∧
    (∀ ty input out, ty ∈ cidrTypes → DedupRel ty input out →
      out.Perm ((input.dedup).map normalizeCIDR) ∧
      out.Pairwise (fun a b => extractCIDRMask b < extractCIDRMask a ∨
        (extractCIDRMask a = extractCIDRMask b ∧ ltL b a = false))) := by
  refine ⟨by decide, by decide, by decide, by decide, ?_⟩
  intro ty input out hty h
  constructor
  · have hp := h.1
    rwa [funext (normFor_cidr hty)] at hp
  · refine h.2.imp ?_
    intro a b hab
    rw [cmpLt_cidr hty] at hab
    unfold cidrLt at hab
    by_cases hm2 : extractCIDRMask a = extractCIDRMask b
    · right
      rw [if_neg (by omega)] at hab
      exact ⟨hm2, hab⟩
    · left
      rw [if_pos (by omega)] at hab
      simp at hab
      omega

/-- Witness for C6's sorting part at a concrete IP-CIDR input. -/
theorem claim_C6_witness :
    ([str "1.2.3.4/32"] : List Str).Perm
      (([str "1.2.3.4"].dedup).map normalizeCIDR) ∧
    ([str "1.2.3.4/32"] : List Str).Pairwise
      (fun a b => extractCIDRMask b < extractCIDRMask a ∨
        (extractCIDRMask a = extractCIDRMask b ∧ ltL b a = false)) :=
  claim_C6_cidr_normalize_sort.2.2.2.2 (str "IP-CIDR") [str "1.2.3.4"]
    [str "1.2.3.4/32"] (by decide) (by decide)

/-- The equality matcher sends the empty pattern only to the empty
string, as the glob library does. -/
lemma mEq_empty (s2 : Str) : mEq [] s2 = some true → s2 = [] := by
  intro h
  simp [mEq] at h
  exact h

/-- C7: applyRuleFilters is whitelist-then-blacklist with default-allow:
a rule survives iff (the filters list is empty, or its fully-qualified
`TYPE,payload` string matches at least one filter) and it matches no
exclude pattern; a rule matching both a filter and an exclude is
excluded. The matcher `m` is abstract, constrained only to let the empty
pattern match nothing but the empty string, as the glob library does. -/
theorem claim_C7_filter_exclude (m : Str → Str → Option Bool)
    (hm : ∀ s2, m [] s2 = some true → s2 = [])
    (rules : List Str) (ty : Str) (filters excludes : List Str) :
    (∀ rule, rule ∈ applyRuleFilters m rules ty filters excludes ↔
      rule ∈ rules ∧
      (filters = [] ∨ ∃ f ∈ filters, m f (fullRule ty rule) = some true) ∧
      (∀ e ∈ excludes, ¬(m e (fullRule ty rule) = some true))) ∧
    (∀ rule ∈ rules, (∃ f ∈ filters, m f (fullRule ty rule) = some true) →
      (∃ e ∈ excludes, m e (fullRule ty rule) = some true) →
      rule ∉ applyRuleFilters m rules ty filters excludes) := by
  have main : ∀ rule, rule ∈ applyRuleFilters m rules ty filters excludes ↔
      rule ∈ rules ∧
      (filters = [] ∨ ∃ f ∈ filters, m f (fullRule ty rule) = some true) ∧
      (∀ e ∈ excludes, ¬(m e (fullRule ty rule) = some true)) := by
    intro rule
    rw [applyRuleFilters_eq_filter, List.mem_filter, Bool.and_eq_true]
    have hiff1 : (filters.isEmpty || filtersPass m ty filters rule) = true ↔
        (filters = [] ∨ ∃ f ∈ filters, m f (fullRule ty rule) = some true) := by
      rw [Bool.or_eq_true]
      constructor
      · rintro (h | h)
        · left
          cases filters with
          | nil => rfl
          | cons f fs => exact absurd h (by simp)
        · right
          unfold filtersPass at h
          rw [List.any_eq_true] at h
          obtain ⟨f, hf, hok⟩ := h
          rw [Bool.and_eq_true, matchOK_eq_true] at hok
          exact ⟨f, hf, hok.2⟩
      · rintro (h | h)
        · left
          rw [h]
          rfl
        · right
          obtain ⟨f, hf, hok⟩ := h
          unfold filtersPass
          rw [List.any_eq_true]
          refine ⟨f, hf, ?_⟩
          rw [Bool.and_eq_true, matchOK_eq_true]
          refine ⟨?_, hok⟩
          cases f with
          | nil => exact absurd (hm _ hok) (fullRule_ne_nil ty rule)
          | cons c cs => rfl
    have hiff2 : excludesPass m ty excludes rule = true ↔
        (∀ e ∈ excludes, ¬(m e (fullRule ty rule) = some true)) := by
      unfold excludesPass
      rw [Bool.not_eq_true', List.any_eq_false]
      constructor
      · intro h e he hm2
        have h3 := h e he
        cases e with
        | nil => exact absurd (hm _ hm2) (fullRule_ne_nil ty rule)
        | cons c cs =>
          have hmk : matchOK m (c :: cs) (fullRule ty rule) = true :=
            matchOK_eq_true.mpr hm2
          rw [hmk] at h3
          simp at h3
      · intro h e he
        by_cases he0 : e = []
        · subst he0
          simp
        · have hmk : matchOK m e (fullRule ty rule) = false := by
            cases hv : matchOK m e (fullRule ty rule)
            · rfl
            · exact absurd (matchOK_eq_true.mp hv) (h e he)
          rw [hmk]
          simp
    rw [hiff1, hiff2]
  refine ⟨main, ?_⟩
  intro rule hrule hf he hmem
  obtain ⟨e, hee, het⟩ := he
  exact ((main rule).mp hmem).2.2 e hee het

/-- Witness for C7: a rule matching both a filter and an exclude is
excluded from the output. -/
theorem claim_C7_witness :
    str "a" ∉ applyRuleFilters mEq [str "a"] (str "DOMAIN")
      [str "DOMAIN,a"] [str "DOMAIN,a"] :=
  (claim_C7_filter_exclude mEq mEq_empty [str "a"] (str "DOMAIN")
      [str "DOMAIN,a"] [str "DOMAIN,a"]).2 (str "a") (by decide)
    ⟨str "DOMAIN,a", by decide, by decide⟩
    ⟨str "DOMAIN,a", by decide, by decide⟩

/-- C4 counterexample: a rule set holding a single MATCH rule and no
filters has a non-empty post-filter MATCH list, yet both classical_all
outputs are empty: MATCH (like FINAL) is never emitted. -/
theorem claim_C4_counterexample :
    getRules rsMatchOnly (str "MATCH") = [str "x"] ∧
    applyRuleFilters mFalse (getRules rsMatchOnly (str "MATCH")) (str "MATCH")
      rsMatchOnly.filters rsMatchOnly.excludes = [str "x"] ∧
    exportClassicalList mFalse rsMatchOnly true false = [] ∧
    exportClassicalList mFalse rsMatchOnly true true = [] := by decide

/-- C4 (amended): with includeAll = true no type of the exporter's fixed
traversal order is excluded — every rule surviving the filters for a
type in that order is emitted — but the traversal order omits MATCH and
FINAL, so rules stored under those two kinds are never exported. -/
theorem claim_C4_amended :
    (∀ (m : Str → Str → Option Bool) (rs : RuleSetL) (w : Bool) (ty r : Str),
      ty ∈ orderedTypes →
      r ∈ applyRuleFilters m (getRules rs ty) ty rs.filters rs.excludes →
      fullRule ty (processCIDRRule w ty r) ∈ exportClassicalList m rs true w) ∧
    str "MATCH" ∉ orderedTypes ∧ str "FINAL" ∉ orderedTypes := by
  refine ⟨?_, by decide, by decide⟩
  intro m rs w ty r hty hr
  exact mem_exportClassicalList_of m rs w ty r hty hr

/-- Witness for C4's amended theorem at a concrete GEOIP rule set. -/
theorem claim_C4_witness :
    fullRule (str "GEOIP") (processCIDRRule false (str "GEOIP") (str "US")) ∈
      exportClassicalList mFalse ⟨str "t", [(str "GEOIP", [str "US"])], [], []⟩ true false :=
  claim_C4_amended.1 mFalse ⟨str "t", [(str "GEOIP", [str "US"])], [], []⟩ false
    (str "GEOIP") (str "US") (by decide) (by decide)

/-- C1: loading rule-set `test` from the three example lines and running
Deduplicate yields, for any matcher: a domain list holding exactly
`+.example.com`, an ipcidr list holding exactly `1.2.3.0/24`, a
classical_no_resolve list holding exactly the line
`IP-CIDR,1.2.3.0/24,no-resolve`, and an empty classical list (neither
the domain-suffix rule nor the plain IP-CIDR rule). -/
theorem claim_C1_end_to_end (m : Str → Str → Option Bool) (rs2 : RuleSetL)
    (h : StoreDedupRel (loadLines testLines (mkRuleSet (str "test"))) rs2) :
    exportDomainList m rs2 = [str "+.example.com"] ∧
    exportIPCIDRList m rs2 = [str "1.2.3.0/24"] ∧
    exportClassicalList m rs2 false true = [str "IP-CIDR,1.2.3.0/24,no-resolve"] ∧
    exportClassicalList m rs2 false false = [] := by
  obtain ⟨hn, hf, he, hlen, hall⟩ := h
  have hload : (loadLines testLines (mkRuleSet (str "test"))).rules =
      [(str "IP-CIDR", [str "1.2.3.0/24", str "1.2.3.0/24"]),
       (str "DOMAIN-SUFFIX", [str ".example.com"])] := by decide
  rw [hload] at hlen hall
  rcases rs2 with ⟨n2, rl2, f2, e2⟩
  dsimp only at hn hf he hlen hall ⊢
  rcases rl2 with _ | ⟨q1, rl2⟩
  · simp at hlen
  rcases rl2 with _ | ⟨q2, rl2⟩
  · simp at hlen
  rcases rl2 with _ | ⟨q3, rl2⟩
  · clear hlen
    rcases q1 with ⟨k1, v1⟩
    rcases q2 with ⟨k2, v2⟩
    have hA := hall ((str "IP-CIDR", [str "1.2.3.0/24", str "1.2.3.0/24"]), (k1, v1))
      (by simp [List.zip_cons_cons])
    have hB := hall ((str "DOMAIN-SUFFIX", [str ".example.com"]), (k2, v2))
      (by simp [List.zip_cons_cons])
    obtain ⟨hk1, hd1⟩ := hA
    obtain ⟨hk2, hd2⟩ := hB
    dsimp only at hk1 hd1 hk2 hd2
    have hL1 : ((List.dedup [str "1.2.3.0/24", str "1.2.3.0/24"]).map
        (normFor (str "IP-CIDR"))) = [str "1.2.3.0/24"] := by decide
    have hv1 : v1 = [str "1.2.3.0/24"] := by
      have hp := hd1.1
      rw [hL1] at hp
      exact List.perm_singleton.mp hp
    have hL2 : ((List.dedup [str ".example.com"]).map
        (normFor (str "DOMAIN-SUFFIX"))) = [str ".example.com"] := by decide
    have hv2 : v2 = [str ".example.com"] := by
      have hp := hd2.1
      rw [hL2] at hp
      exact List.perm_singleton.mp hp
    subst hk1 hk2 hv1 hv2 hn hf he
    rw [exportDomainList_congr m _ rfl rfl, exportIPCIDRList_congr m _ rfl rfl,
      exportClassicalList_congr m _ false true rfl rfl,
      exportClassicalList_congr m _ false false rfl rfl]
    exact ⟨by decide, by decide, by decide, by decide⟩
  · simp at hlen

/-- Witness for C1 at the concrete deduplicated store and a concrete
matcher. -/
theorem claim_C1_witness :
    exportDomainList mFalse ⟨str "test",
      [(str "IP-CIDR", [str "1.2.3.0/24"]), (str "DOMAIN-SUFFIX", [str ".example.com"])],
      [], []⟩ = [str "+.example.com"] ∧
    exportIPCIDRList mFalse ⟨str "test",
      [(str "IP-CIDR", [str "1.2.3.0/24"]), (str "DOMAIN-SUFFIX", [str ".example.com"])],
      [], []⟩ = [str "1.2.3.0/24"] ∧
    exportClassicalList mFalse ⟨str "test",
      [(str "IP-CIDR", [str "1.2.3.0/24"]), (str "DOMAIN-SUFFIX", [str ".example.com"])],
      [], []⟩ false true = [str "IP-CIDR,1.2.3.0/24,no-resolve"] ∧
    exportClassicalList mFalse ⟨str "test",
      [(str "IP-CIDR", [str "1.2.3.0/24"]), (str "DOMAIN-SUFFIX", [str ".example.com"])],
      [], []⟩ false false = [] :=
  claim_C1_end_to_end mFalse ⟨str "test",
    [(str "IP-CIDR", [str "1.2.3.0/24"]), (str "DOMAIN-SUFFIX", [str ".example.com"])],
    [], []⟩ (by decide)
